import Mathlib

/-!
Verification of the hubverse-transform model-output pipeline
(`src/hubverse_transform/model_output.py`).

Python strings are embedded as `List Char` (`PyStr`); Python path objects
(`pathlib.PurePosixPath` / `cloudpathlib.AnyPath`) are embedded through an
explicit posix-style normalization of the underlying string.  Fallible
Python code (functions that `raise`) is embedded as `Except PyErr`.
-/

set_option maxRecDepth 4000

namespace HubTransform

abbrev PyStr := List Char

/-- ASCII whitespace stripped by Python `str.strip()`. -/
def pyIsSpace (c : Char) : Bool :=
  c = ' ' || c = '\t' || c = '\n' || c = '\x0d' || c = '\x0b' || c = '\x0c'

/-- Python `str.lstrip()`. -/
def lstrip (s : PyStr) : PyStr := s.dropWhile pyIsSpace

/-- Python `str.rstrip()`. -/
def rstrip (s : PyStr) : PyStr := (lstrip s.reverse).reverse

/-- Python `str.strip()`. -/
def strip (s : PyStr) : PyStr := rstrip (lstrip s)

/-- The separator characters of the `[-_]*` run in `parse_file`. -/
def isSep (c : Char) : Bool := c = '-' || c = '_'

/-- Drop a leading (greedy) run of `-`/`_` characters: the `[-_]*` part of
the `re.split` pattern in `parse_file`. -/
def dropSeps : PyStr → PyStr
  | [] => []
  | c :: cs => if isSep c then dropSeps cs else c :: cs

/-- Whether `pat` occurs (as a contiguous sublist) in `s`. -/
def containsSub (pat : PyStr) : PyStr → Bool
  | [] => pat.isPrefixOf []
  | c :: cs => pat.isPrefixOf (c :: cs) || containsSub pat cs

/-- The regex `^\d{4}-\d{2}-\d{2}` of `parse_file`, applied to an exactly
ten-character candidate. -/
def datePat (s : PyStr) : Bool :=
  match s with
  | [a, b, c, d, e, f, g, h, i, j] =>
    a.isDigit && b.isDigit && c.isDigit && d.isDigit && e = '-' &&
    f.isDigit && g.isDigit && h = '-' && i.isDigit && j.isDigit
  | _ => false

/-- Embedding of `re.match(r"^\d{4}-\d{2}-\d{2}", file_name)`: the anchored match
succeeds iff the first ten characters have the date shape, and then
returns exactly those ten characters. -/
def matchRoundId (s : PyStr) : Option PyStr :=
  if datePat (s.take 10) then some (s.take 10) else none

/-- One scanning step of `re.split(rf"{round_id}[-_]*", file_name)`:
leftmost, non-overlapping matches of the literal `round_id` followed by a
greedy run of `-`/`_`.  `fuel` bounds the recursion; any `fuel ≥ s.length`
computes the true result. -/
def splitRoundAux (rid : PyStr) : Nat → PyStr → PyStr → List PyStr
  | _, acc, [] => [acc.reverse]
  | 0, acc, rest => [acc.reverse ++ rest]
  | fuel + 1, acc, c :: cs =>
    if rid ≠ [] ∧ rid.isPrefixOf (c :: cs) then
      acc.reverse :: splitRoundAux rid fuel [] (dropSeps (List.drop rid.length (c :: cs)))
    else
      splitRoundAux rid fuel (c :: acc) cs

/-- Embedding of `re.split(rf"{round_id}[-_]*", file_name)`. -/
def splitRound (rid s : PyStr) : List PyStr :=
  splitRoundAux rid s.length [] s

deriving instance DecidableEq for Except

/-- Python exceptions surfaced by the handler. -/
inductive PyErr where
  | userWarning (path : PyStr) (msg : PyStr)
  | valueError (msg : PyStr)
  | indexError
  deriving DecidableEq, Repr

/-- The `{round_id, model_id}` dictionary returned by `parse_file`. -/
structure FileParts where
  round_id : PyStr
  model_id : PyStr
  deriving DecidableEq, Repr

def roundErrMsg (fn : PyStr) : PyStr :=
  ("Unable to get YYYY-MM-DD round_id from file name ").toList ++ fn ++ (".").toList

def modelErrMsg (fn : PyStr) : PyStr :=
  ("Unable to get model_id from file name ").toList ++ fn ++ (".").toList

/-- Embedding of `ModelOutputHandler.parse_file`: match the date prefix, split the file
name on every occurrence of `round_id` followed by a separator run, take
the last piece, and strip surrounding whitespace. -/
def parse_file (file_name : PyStr) : Except PyErr FileParts :=
  match matchRoundId file_name with
  | none => .error (.valueError (roundErrMsg file_name))
  | some rid =>
    let pieces := splitRound rid file_name
    if pieces.length ≤ 1 ∨ pieces.getLastD [] = [] then
      .error (.valueError (modelErrMsg file_name))
    else
      .ok ⟨rid, strip (pieces.getLastD [])⟩







/-! ## Posix path embedding (`pathlib.PurePosixPath` / `cloudpathlib.AnyPath`) -/

/-- Split a raw path string on `/` (keeping empty segments). -/
def splitSeg : PyStr → List PyStr
  | [] => [[]]
  | c :: cs =>
    if c = '/' then [] :: splitSeg cs
    else
      match splitSeg cs with
      | [] => [[c]]
      | p :: ps => (c :: p) :: ps

/-- Interleave segments with `/`. -/
def joinSeg : List PyStr → PyStr
  | [] => []
  | [p] => p
  | p :: ps => p ++ '/' :: joinSeg ps

/-- Segments kept by `PurePosixPath` parsing: empty segments (duplicate or
trailing slashes) and `.` segments are dropped. -/
def goodSeg (p : PyStr) : Bool :=
  if p = [] then false else if p = ['.'] then false else true

/-- The root of a posix path as `pathlib` keeps it: exactly two leading
slashes are preserved as `//`; one, or three or more, collapse to `/`. -/
def posixRoot (s : PyStr) : PyStr :=
  match s with
  | [] => []
  | c :: rest =>
    if c = '/' then
      match rest with
      | [] => ['/']
      | c2 :: rest2 =>
        if c2 = '/' then
          match rest2 with
          | [] => ['/', '/']
          | c3 :: _ => if c3 = '/' then ['/'] else ['/', '/']
        else ['/']
    else []

/-- Embedding of `str(PurePosixPath(s))`: the root followed by the kept segments joined
with `/`; the empty relative path renders as `.`. -/
def posixNorm (s : PyStr) : PyStr :=
  let segs := (splitSeg s).filter goodSeg
  if posixRoot s = [] ∧ segs = [] then ['.']
  else posixRoot s ++ joinSeg segs

/-- Embedding of `PurePosixPath(s).parts`: the root (when present) followed by the kept
segments. -/
def pathParts (s : PyStr) : List PyStr :=
  (if posixRoot s = [] then [] else [posixRoot s]) ++ (splitSeg s).filter goodSeg

/-- Embedding of `PurePosixPath(s).name`: the last kept segment (empty for a bare root
or the empty path). -/
def pname (s : PyStr) : PyStr := ((splitSeg s).filter goodSeg).getLastD []

/-- Index of the last `.` in a name, if any. -/
def lastDotIdx (s : PyStr) : Option Nat :=
  match s.reverse.findIdx? (· = '.') with
  | none => none
  | some j => some (s.length - 1 - j)

/-- Embedding of `pathlib` suffix of a name: `name[i:]` for the last dot index `i` when
`0 < i < len(name) - 1`, else empty. -/
def psuffixOfName (name : PyStr) : PyStr :=
  match lastDotIdx name with
  | none => []
  | some i => if 0 < i ∧ i < name.length - 1 then name.drop i else []

/-- Embedding of `pathlib` stem of a name: `name[:i]` under the same condition, else the
whole name. -/
def pstemOfName (name : PyStr) : PyStr :=
  match lastDotIdx name with
  | none => name
  | some i => if 0 < i ∧ i < name.length - 1 then name.take i else name

/-- Embedding of `PurePosixPath(s).suffix`. -/
def psuffix (s : PyStr) : PyStr := psuffixOfName (pname s)

/-- Embedding of `PurePosixPath(s).stem`. -/
def pstem (s : PyStr) : PyStr := pstemOfName (pname s)


/-! ## `sanitize_uri` -/

/-- Python `str.replace(pat, repl)` (all non-overlapping occurrences, left
to right), fueled; any `fuel ≥ s.length` computes the true result. -/
def replaceAllAux (pat repl : PyStr) : Nat → PyStr → PyStr
  | _, [] => []
  | 0, s => s
  | fuel + 1, c :: cs =>
    if pat.isPrefixOf (c :: cs) then
      repl ++ replaceAllAux pat repl fuel (List.drop pat.length (c :: cs))
    else
      c :: replaceAllAux pat repl fuel cs

/-- Python `s.replace(pat, repl)`.  The `pat = []` case is the identity,
which matches the single call site (`repl` is then also empty). -/
def replaceAll (s pat repl : PyStr) : PyStr :=
  if pat = [] then s else replaceAllAux pat repl s.length s

/-- Uppercase hex digit of a value below 16. -/
def hexDigit (n : Nat) : Char :=
  if n < 10 then Char.ofNat (48 + n) else Char.ofNat (55 + n)

/-- UTF-8 encoding of one code point. -/
def utf8Bytes (c : Char) : List Nat :=
  let n := c.toNat
  if n < 128 then [n]
  else if n < 2048 then [192 + n / 64, 128 + n % 64]
  else if n < 65536 then [224 + n / 4096, 128 + n / 64 % 64, 128 + n % 64]
  else [240 + n / 262144, 128 + n / 4096 % 64, 128 + n / 64 % 64, 128 + n % 64]

/-- The `%XX` escape of one byte, uppercase, as produced by `urllib.parse.quote`. -/
def pctByte (b : Nat) : PyStr := ['%', hexDigit (b / 16), hexDigit (b % 16)]

/-- Embedding of `urllib.parse.quote` on one character: ASCII alphanumerics, `_.-~` and
the characters of `safe` pass through; everything else is percent-encoded
byte by byte. -/
def quoteChar (safe : List Char) (c : Char) : PyStr :=
  if c.isAlphanum || c = '_' || c = '.' || c = '-' || c = '~' || c ∈ safe then [c]
  else ((utf8Bytes c).map pctByte).flatten

/-- Embedding of `urllib.parse.quote(s, safe)`. -/
def pyQuote (safe : List Char) (s : PyStr) : PyStr := (s.map (quoteChar safe)).flatten

/-- The default `safe=":/"` of `sanitize_uri`. -/
def quoteSafeDefault : List Char := [':', '/']

/-- Embedding of `str(AnyPath(s))`: posix normalization, keeping an `s3://` scheme
marker intact. -/
def anyPathStr (s : PyStr) : PyStr :=
  if ("s3://").toList.isPrefixOf s then ("s3://").toList ++ posixNorm (s.drop 5)
  else posixNorm s

/-- Embedding of `ModelOutputHandler.sanitize_uri`: replace the stem by its stripped
form, re-parse through `AnyPath`, strip the whole string, then
percent-encode with `:` and `/` kept safe. -/
def sanitize_uri (path : PyStr) : PyStr :=
  let st := pstem path
  let clean_path := anyPathStr (replaceAll path st (strip st))
  let clean_string := strip clean_path
  pyQuote quoteSafeDefault clean_string


/-! ## The handler -/

/-- The state of a constructed `ModelOutputHandler`.  `fs.FileSystem.from_uri`
is modeled as returning the sanitized URI string itself as the path; the
scheme part never affects names, stems or suffixes. -/
structure Handler where
  input_file : PyStr
  output_path : PyStr
  file_name : PyStr
  file_type : PyStr
  round_id : PyStr
  model_id : PyStr
  deriving DecidableEq, Repr

def supported_file_types : List PyStr :=
  [(".csv").toList, (".parquet").toList, (".pqt").toList]

def noExtMsg : PyStr := ("Input file has no extension").toList

def unsupportedMsg (t : PyStr) : PyStr :=
  ("Input file type ").toList ++ t ++ (" is not supported").toList

/-- Embedding of `ModelOutputHandler.__init__` for the already-joined input path
`hub_path / mo_path`: sanitize, derive name and type, raise the
no-extension warning (on the unsanitized path's suffix), then the
unsupported-type warning, and only then parse the file name. -/
def mkHandler (input_path output_path : PyStr) : Except PyErr Handler :=
  let sanitized := sanitize_uri input_path
  let file_name := pstem sanitized
  let file_type := psuffix sanitized
  if psuffix input_path = [] then
    .error (.userWarning input_path noExtMsg)
  else if ¬ file_type ∈ supported_file_types then
    .error (.userWarning input_path (unsupportedMsg file_type))
  else
    match parse_file file_name with
    | .error e => .error e
    | .ok parts =>
      .ok ⟨sanitized, sanitize_uri output_path, file_name, file_type,
           parts.round_id, parts.model_id⟩

def originErrMsg (s3_key originSeg : PyStr) : PyStr :=
  ("Model output path ").toList ++ s3_key ++
    (" does not begin with ").toList ++ originSeg ++ (".").toList

/-- Embedding of `ModelOutputHandler.from_s3`: check that the first part of the key is
the origin segment (`AnyPath(s3_key).parts[0]`, an `IndexError` when the
key has no parts), then build the destination path (`relative_to` the
origin segment, then `parent`, the empty relative parent rendering as `.`)
and construct the handler. -/
def from_s3 (bucket s3_key originSeg : PyStr) : Except PyErr Handler :=
  match pathParts s3_key with
  | [] => .error .indexError
  | p0 :: _ =>
    if p0 ≠ originSeg then
      .error (.valueError (originErrMsg s3_key originSeg))
    else
      let relSegs := ((splitSeg s3_key).filter goodSeg).drop 1
      let destSegs := relSegs.dropLast
      let destination := if destSegs = [] then ['.'] else joinSeg destSegs
      mkHandler (("s3://").toList ++ bucket ++ '/' :: s3_key)
                (("s3://").toList ++ bucket ++ '/' :: destination)

/-- The path written by `write_parquet`:
`f-string {output_path}/{file_name}.parquet`, verbatim concatenation. -/
def write_parquet_path (output_path file_name : PyStr) : PyStr :=
  output_path ++ '/' :: (file_name ++ (".parquet").toList)

/-- Embedding of `str(Path(p) / q)` for a relative, slash-free `q` (the file name):
pathlib joins the two and normalizes the result. -/
def pathlibJoin (p q : PyStr) : PyStr :=
  posixNorm (if p = [] then q else p ++ '/' :: q)

/-- The path targeted by `delete_model_output`:
`str(Path(self.output_path) / f-string {file_name}.parquet)`. -/
def delete_output_path (output_path file_name : PyStr) : PyStr :=
  pathlibJoin output_path (file_name ++ (".parquet").toList)

/-! ## Deletion against a file store

The output filesystem is embedded as the list of paths that exist;
`delete_file` models `pyarrow`'s `FileSystem.delete_file`, whose failure on
a missing path surfaces as `FileNotFoundError` (`none` here). -/

def delete_file (store : List PyStr) (path : PyStr) : Option (List PyStr) :=
  if path ∈ store then some (store.erase path) else none

def notFoundMsg : PyStr := ("Model output file not found for deletion").toList

/-- Embedding of `ModelOutputHandler.delete_model_output`: try the delete; on
`FileNotFoundError`, log and raise a `UserWarning` via
`raise_user_warning` instead of propagating a fatal error. -/
def delete_model_output (store : List PyStr) (output_path file_name : PyStr) :
    List PyStr × Except PyErr Unit :=
  let mo_path := delete_output_path output_path file_name
  match delete_file store mo_path with
  | some store2 => (store2, .ok ())
  | none => (store, .error (.userWarning mo_path notFoundMsg))

/-- Outcomes of `lambda_handler` (`faas/lambda_function.py`): a normal
completion, a swallowed `UserWarning` (`except UserWarning: pass`), or a
logged generic exception. -/
inductive LambdaOutcome where
  | completed
  | skippedWarning
  | loggedError
  deriving DecidableEq, Repr

/-- The delete branch of `lambda_handler`, with its exception handling. -/
def lambda_delete (store : List PyStr) (output_path file_name : PyStr) :
    List PyStr × LambdaOutcome :=
  match delete_model_output store output_path file_name with
  | (s2, .ok _) => (s2, .completed)
  | (s2, .error (.userWarning _ _)) => (s2, .skippedWarning)
  | (s2, .error _) => (s2, .loggedError)

/-! ## Schemas and tables -/

/-- Arrow logical types (the ones the pipeline distinguishes). -/
inductive PType where
  | string
  | int64
  | float64
  | boolean
  deriving DecidableEq, Repr

abbrev ArrowSchema := List (String × PType)

/-- The two columns force-typed to string by `read_file`. -/
def forcedString (n : String) : Bool := n = "location" || n = "output_type_id"

/-- The CSV read path: `ConvertOptions.column_types` overrides the type of
every column named `location` or `output_type_id` to string; all other
columns keep their inferred type. -/
def csvReadSchema (inferred : ArrowSchema) : ArrowSchema :=
  inferred.map (fun f => if forcedString f.1 then (f.1, PType.string) else f)

def countName (s : ArrowSchema) (n : String) : Nat := (s.map Prod.fst).count n

/-- Replace the first field named `n` by `(n, string)`. -/
def setFirstString : ArrowSchema → String → ArrowSchema
  | [], _ => []
  | f :: fs, n => if f.1 = n then (n, PType.string) :: fs else f :: setFirstString fs n

/-- One iteration of the Parquet loop: `schema.get_field_index(n)` returns
the index of the field named `n` when that name is unique (`-1` if absent
or duplicated), and `schema.set` replaces it with a string field. -/
def forceFieldString (s : ArrowSchema) (n : String) : ArrowSchema :=
  if countName s n = 1 then setFirstString s n else s

/-- The Parquet read path: the file's native schema with `location`, then
`output_type_id`, forced to string. -/
def parquetReadSchema (native : ArrowSchema) : ArrowSchema :=
  forceFieldString (forceFieldString native "location") "output_type_id"

/-- One table cell. -/
inductive CellVal where
  | null
  | str (s : String)
  | int (i : Int)
  deriving DecidableEq, Repr

/-- Embedding of `ConvertOptions.null_values` as configured by `read_file`. -/
def null_values : List String := ["na", "NA", "", " ", "null", "Null", "NaN", "nan"]

/-- CSV cell conversion under the configured `ConvertOptions`: a raw token
in `null_values` becomes null whatever the column type
(`strings_can_be_null=True` extends this to string columns); any other
token in a string column is kept verbatim; other types defer to the
given (pyarrow-internal) decoder. -/
def readCsvCell (decode : PType → String → Except Unit CellVal)
    (t : PType) (raw : String) : Except Unit CellVal :=
  if raw ∈ null_values then .ok .null
  else
    match t with
    | .string => .ok (.str raw)
    | _ => decode t raw

/-- A decoder refusing every non-string conversion (used only to
instantiate witnesses). -/
def noDecode : PType → String → Except Unit CellVal := fun _ _ => .error ()

abbrev Column := List CellVal
abbrev PTable := List (String × Column)

/-- Embedding of `pyarrow.Table.num_rows` for a table whose columns all share the length
of the first one. -/
def numRows (t : PTable) : Nat :=
  match t with
  | [] => 0
  | (_, c) :: _ => c.length

/-- Embedding of `table[name]` under unique column names. -/
def lookupCol (t : PTable) (n : String) : Option Column :=
  (t.find? (fun f => f.1 = n)).map Prod.snd

/-- Python dict merge `old | new`: keys of `old` in their order, with
values overridden by `new` on collision; then keys only in `new`, in
`new`'s order. -/
def dictMerge (old new : PTable) : PTable :=
  old.map (fun f =>
    match lookupCol new f.1 with
    | some v => (f.1, v)
    | none => f)
  ++ new.filter (fun f => lookupCol old f.1 = none)

/-- Embedding of `ModelOutputHandler.add_columns`: merge the existing columns with two
constant columns `round_id` and `model_id` (each value repeated
`num_rows` times) and rebuild the table. -/
def add_columns (round_id model_id : String) (t : PTable) : PTable :=
  let n := numRows t
  dictMerge t
    [("round_id", List.replicate n (.str round_id)),
     ("model_id", List.replicate n (.str model_id))]



/-! ## Lemmas about `parse_file`'s splitting scan -/

lemma dropSeps_append_of_seps (s t : PyStr) (h : ∀ c ∈ s, isSep c = true) :
    dropSeps (s ++ t) = dropSeps t := by
  induction s with
  | nil => simp
  | cons c cs ih =>
    have hc := h c (by simp)
    simp only [List.cons_append, dropSeps, hc, if_true]
    exact ih (fun d hd => h d (by simp [hd]))

lemma dropSeps_length_le (s : PyStr) : (dropSeps s).length ≤ s.length := by
  induction s with
  | nil => simp [dropSeps]
  | cons c cs ih =>
    by_cases hc : isSep c = true
    · simp only [dropSeps, hc, if_true]
      exact Nat.le_succ_of_le ih
    · simp only [dropSeps]
      rw [if_neg hc]

lemma datePat_length (s : PyStr) (h : datePat s = true) : s.length = 10 := by
  unfold datePat at h
  split at h
  · simp_all
  · exact absurd h (by simp)

lemma datePat_ne_nil (s : PyStr) (h : datePat s = true) : s ≠ [] := by
  intro hn
  have := datePat_length s h
  simp [hn] at this

lemma matchRoundId_append (rid t : PyStr) (h : datePat rid = true) :
    matchRoundId (rid ++ t) = some rid := by
  have hlen := datePat_length rid h
  have htake : (rid ++ t).take 10 = rid := by
    rw [← hlen]
    exact List.take_left rid t
  simp [matchRoundId, htake, h]

lemma containsSub_nil (rid : PyStr) (h : rid ≠ []) : containsSub rid [] = false := by
  cases rid with
  | nil => exact absurd rfl h
  | cons c cs => rfl

lemma splitRoundAux_no_match (rid : PyStr) :
    ∀ fuel s acc, containsSub rid s = false → s.length ≤ fuel →
      splitRoundAux rid fuel acc s = [acc.reverse ++ s] := by
  intro fuel
  induction fuel with
  | zero =>
    intro s acc _ hl
    cases s with
    | nil => simp [splitRoundAux]
    | cons c cs => simp at hl
  | succ f ih =>
    intro s acc hc hl
    cases s with
    | nil => simp [splitRoundAux]
    | cons c cs =>
      unfold containsSub at hc
      obtain ⟨hnp, hcs⟩ := Bool.or_eq_false_iff.mp hc
      simp only [splitRoundAux]
      rw [if_neg (by rw [hnp]; exact fun hcond => by simpa using hcond.2)]
      rw [ih cs (c :: acc) hcs (by simpa using Nat.le_of_succ_le_succ hl)]
      simp

lemma isPrefixOf_append_self (l t : PyStr) : l.isPrefixOf (l ++ t) = true := by
  induction l with
  | nil => simp [List.isPrefixOf]
  | cons c cs ih => simp [List.isPrefixOf, ih]

lemma splitRoundAux_head (rid t acc : PyStr) (f : Nat) (hrid : rid ≠ []) :
    splitRoundAux rid (f + 1) acc (rid ++ t) =
      acc.reverse :: splitRoundAux rid f [] (dropSeps t) := by
  obtain ⟨r0, rs, rfl⟩ : ∃ r0 rs, rid = r0 :: rs := by
    cases rid with
    | nil => exact absurd rfl hrid
    | cons a b => exact ⟨a, b, rfl⟩
  show splitRoundAux (r0 :: rs) (f + 1) acc (r0 :: (rs ++ t)) = _
  simp only [splitRoundAux]
  rw [if_pos ⟨by simp, isPrefixOf_append_self (r0 :: rs) t⟩]
  congr 1
  show splitRoundAux (r0 :: rs) f []
      (dropSeps (List.drop (r0 :: rs).length ((r0 :: rs) ++ t))) = _
  rw [List.drop_left]

lemma splitRound_decomp (rid seps rest : PyStr)
    (hrid : datePat rid = true) (hsep : ∀ c ∈ seps, isSep c = true)
    (hocc : containsSub rid (dropSeps rest) = false) :
    splitRound rid (rid ++ (seps ++ rest)) = [[], dropSeps rest] := by
  have hne := datePat_ne_nil rid hrid
  have hlen10 := datePat_length rid hrid
  unfold splitRound
  obtain ⟨f, hf⟩ : ∃ f, (rid ++ (seps ++ rest)).length = f + 1 := by
    refine ⟨(rid ++ (seps ++ rest)).length - 1, ?_⟩
    have : 0 < (rid ++ (seps ++ rest)).length := by
      simp [List.length_append, hlen10]
    omega
  rw [hf, splitRoundAux_head rid (seps ++ rest) [] f hne,
    dropSeps_append_of_seps seps rest hsep]
  have hfbound : (dropSeps rest).length ≤ f := by
    have h1 := dropSeps_length_le rest
    have h2 : (rid ++ (seps ++ rest)).length = 10 + (seps.length + rest.length) := by
      simp [List.length_append, hlen10]
    omega
  rw [splitRoundAux_no_match rid f (dropSeps rest) [] hocc hfbound]
  simp

/-! ## Claim C1 -/

/-- C1 as stated is false: `re.split` splits on *every* occurrence of the
`round_id` string, so a remainder that itself contains the date token is
not returned verbatim.  For `2024-01-01-a2024-01-01-b` (date prefix
`2024-01-01`, one separator, remainder `a2024-01-01-b`) the code returns
`model_id = "b"`, not the remainder. -/
theorem C1_parse_file_counterexample :
    parse_file (("2024-01-01-a2024-01-01-b").toList) ≠
      .ok ⟨("2024-01-01").toList, ("a2024-01-01-b").toList⟩ ∧
    parse_file (("2024-01-01-a2024-01-01-b").toList) =
      .ok ⟨("2024-01-01").toList, ("b").toList⟩ := by
  constructor
  · decide
  · decide

/-- C1 (amended): for every file name `rid ++ seps ++ rest` made of a
`\d{4}-\d{2}-\d{2}` date prefix, a nonempty run of `-`/`_` separators and
a remainder that is nonempty after stripping leading separators,
*provided the stripped remainder does not contain the date prefix as a
substring*, `parse_file` returns `round_id = rid` and `model_id` equal to
the remainder with its leading separator run stripped and surrounding
whitespace trimmed; hyphens and underscores inside it are preserved
verbatim. -/
theorem C1_parse_file_amended (rid seps rest : PyStr)
    (hrid : datePat rid = true)
    (_hseps : seps ≠ []) (hsep : ∀ c ∈ seps, isSep c = true)
    (hrest : dropSeps rest ≠ [])
    (hocc : containsSub rid (dropSeps rest) = false) :
    parse_file (rid ++ seps ++ rest) = .ok ⟨rid, strip (dropSeps rest)⟩ := by
  rw [List.append_assoc]
  have hm : matchRoundId (rid ++ (seps ++ rest)) = some rid :=
    matchRoundId_append rid (seps ++ rest) hrid
  have hs := splitRound_decomp rid seps rest hrid hsep hocc
  unfold parse_file
  rw [hm]
  simp only [hs]
  rw [if_neg]
  · simp [List.getLastD]
  · simp [List.getLastD, hrest]

theorem C1_parse_file_amended_witness :
    datePat (("2420-01-01").toList) = true ∧
    parse_file (("2420-01-01").toList ++ ("____").toList ++
        ("look-at-all-the-hyphens-").toList) =
      .ok ⟨("2420-01-01").toList,
        strip (dropSeps (("look-at-all-the-hyphens-").toList))⟩ :=
  ⟨by decide,
   C1_parse_file_amended (("2420-01-01").toList) (("____").toList)
     (("look-at-all-the-hyphens-").toList)
     (by decide) (by decide) (by decide) (by decide) (by decide)⟩

/-! ## Claim C5 -/

/-- C5: the three format-error conditions. (1) A file name that does not
start with a `\d{4}-\d{2}-\d{2}` date token makes `parse_file` raise a
`ValueError`. (2) A file name whose remainder after the date token and
separator stripping is empty makes `parse_file` raise a `ValueError`.
(3) A submission key whose first path part differs from the configured
origin segment makes `from_s3` raise a `ValueError` before constructing
the handler (in the embedding, `from_s3` returns the error without
evaluating `mkHandler`, mirroring the code where the check precedes all
I/O). -/
theorem C5_format_errors :
    (∀ fn : PyStr, datePat (fn.take 10) = false →
      parse_file fn = .error (.valueError (roundErrMsg fn))) ∧
    (∀ rid seps : PyStr, datePat rid = true → (∀ c ∈ seps, isSep c = true) →
      parse_file (rid ++ seps) = .error (.valueError (modelErrMsg (rid ++ seps)))) ∧
    (∀ bucket s3_key originSeg p0 : PyStr, ∀ rest : List PyStr,
      pathParts s3_key = p0 :: rest → p0 ≠ originSeg →
      from_s3 bucket s3_key originSeg =
        .error (.valueError (originErrMsg s3_key originSeg))) := by
  refine ⟨?_, ?_, ?_⟩
  · intro fn h
    simp [parse_file, matchRoundId, h]
  · intro rid seps hrid hsep
    have hne := datePat_ne_nil rid hrid
    have hm : matchRoundId (rid ++ seps) = some rid := matchRoundId_append rid seps hrid
    have hs : splitRound rid (rid ++ (seps ++ [])) = [[], dropSeps []] :=
      splitRound_decomp rid seps [] hrid hsep
        (by rw [show dropSeps [] = [] from rfl]; exact containsSub_nil rid hne)
    rw [List.append_nil] at hs
    unfold parse_file
    rw [hm]
    simp only [hs]
    have hcond : ([[], dropSeps []] : List PyStr).getLastD [] = [] := rfl
    rw [if_pos (Or.inr hcond)]
  · intro bucket s3_key originSeg p0 rest hparts hne
    unfold from_s3
    rw [hparts]
    simp [hne]

theorem C5_format_errors_witness :
    parse_file (("round_id-team-model").toList) =
      .error (.valueError (roundErrMsg (("round_id-team-model").toList))) ∧
    parse_file (("2420-01-01").toList ++ ("___").toList) =
      .error (.valueError (modelErrMsg (("2420-01-01").toList ++ ("___").toList))) ∧
    from_s3 (("hubverse-test").toList)
        (("prefix1/2420-01-01-team_name-model.csv").toList) (("raw").toList) =
      .error (.valueError (originErrMsg
        (("prefix1/2420-01-01-team_name-model.csv").toList) (("raw").toList))) :=
  ⟨C5_format_errors.1 (("round_id-team-model").toList) (by decide),
   C5_format_errors.2.1 (("2420-01-01").toList) (("___").toList)
     (by decide) (by decide),
   C5_format_errors.2.2 (("hubverse-test").toList)
     (("prefix1/2420-01-01-team_name-model.csv").toList) (("raw").toList)
     (("prefix1").toList)
     [("2420-01-01-team_name-model.csv").toList]
     (by decide) (by decide)⟩

/-! ## Lemmas about the schema-forcing logic of `read_file` -/

lemma setFirstString_names (s : ArrowSchema) (n : String) :
    (setFirstString s n).map Prod.fst = s.map Prod.fst := by
  induction s with
  | nil => rfl
  | cons f fs ih =>
    by_cases hf : f.1 = n
    · simp [setFirstString, hf]
    · simp [setFirstString, hf, ih]

lemma forceFieldString_names (s : ArrowSchema) (n : String) :
    (forceFieldString s n).map Prod.fst = s.map Prod.fst := by
  unfold forceFieldString
  split
  · exact setFirstString_names s n
  · rfl

lemma mem_setFirstString_of_ne (s : ArrowSchema) (n : String) (f : String × PType)
    (hf : f ∈ setFirstString s n) (hne : f.1 ≠ n) : f ∈ s := by
  induction s with
  | nil => simp [setFirstString] at hf
  | cons g gs ih =>
    unfold setFirstString at hf
    by_cases hg : g.1 = n
    · rw [if_pos hg] at hf
      rcases List.mem_cons.mp hf with rfl | hmem
      · exact absurd rfl hne
      · exact List.mem_cons_of_mem g hmem
    · rw [if_neg hg] at hf
      rcases List.mem_cons.mp hf with rfl | hmem
      · exact List.mem_cons_self _ _
      · exact List.mem_cons_of_mem g (ih hmem)

lemma mem_setFirstString_eq (s : ArrowSchema) (n : String) (f : String × PType)
    (hcount : countName s n = 1) (hf : f ∈ setFirstString s n) (hn : f.1 = n) :
    f.2 = PType.string := by
  induction s with
  | nil => simp [setFirstString] at hf
  | cons g gs ih =>
    unfold setFirstString at hf
    by_cases hg : g.1 = n
    · rw [if_pos hg] at hf
      rcases List.mem_cons.mp hf with rfl | hmem
      · rfl
      · exfalso
        have hz : countName gs n = 0 := by
          unfold countName at hcount ⊢
          rw [List.map_cons, hg, List.count_cons_self] at hcount
          omega
        have hmem2 : n ∈ gs.map Prod.fst := hn ▸ List.mem_map_of_mem Prod.fst hmem
        exact absurd hmem2 (List.count_eq_zero.mp hz)
    · rw [if_neg hg] at hf
      rcases List.mem_cons.mp hf with rfl | hmem
      · exact absurd hn hg
      · apply ih _ hmem
        unfold countName at hcount ⊢
        rwa [List.map_cons, List.count_cons_of_ne (fun hh => hg hh.symm)] at hcount

lemma nodup_countName_le_one (s : ArrowSchema)
    (hn : (s.map Prod.fst).Nodup) (n : String) : countName s n ≤ 1 :=
  List.nodup_iff_count_le_one.mp hn n

lemma countName_pos_of_mem (s : ArrowSchema) (f : String × PType) (hf : f ∈ s) :
    0 < countName s f.1 := by
  unfold countName
  exact List.count_pos_iff.mpr (List.mem_map_of_mem Prod.fst hf)

lemma parquet_forced_string (native : ArrowSchema)
    (hnodup : (native.map Prod.fst).Nodup) (f : String × PType)
    (hf : f ∈ parquetReadSchema native)
    (hforced : f.1 = "location" ∨ f.1 = "output_type_id") :
    f.2 = PType.string := by
  set s2 := forceFieldString native "location" with hs2
  have hnodup2 : (s2.map Prod.fst).Nodup := by
    rw [hs2, forceFieldString_names]
    exact hnodup
  rcases hforced with hloc | hotid
  · have hne : f.1 ≠ "output_type_id" := by
      rw [hloc]
      decide
    have hf2 : f ∈ s2 := by
      unfold parquetReadSchema at hf
      rw [← hs2] at hf
      unfold forceFieldString at hf
      split at hf
      · exact mem_setFirstString_of_ne _ _ f hf hne
      · exact hf
    by_cases hc : countName native "location" = 1
    · have heq : s2 = setFirstString native "location" := by
        rw [hs2]
        unfold forceFieldString
        rw [if_pos hc]
      exact mem_setFirstString_eq native "location" f hc (heq ▸ hf2) hloc
    · exfalso
      have heq : s2 = native := by
        rw [hs2]
        unfold forceFieldString
        rw [if_neg hc]
      have h1 : 0 < countName native "location" :=
        hloc ▸ countName_pos_of_mem native f (heq ▸ hf2)
      have h2 := nodup_countName_le_one native hnodup "location"
      omega
  · unfold parquetReadSchema at hf
    rw [← hs2] at hf
    by_cases hc : countName s2 "output_type_id" = 1
    · have heq : forceFieldString s2 "output_type_id" =
          setFirstString s2 "output_type_id" := by
        unfold forceFieldString
        rw [if_pos hc]
      exact mem_setFirstString_eq s2 "output_type_id" f hc (heq ▸ hf) hotid
    · exfalso
      have heq : forceFieldString s2 "output_type_id" = s2 := by
        unfold forceFieldString
        rw [if_neg hc]
      have h1 : 0 < countName s2 "output_type_id" :=
        hotid ▸ countName_pos_of_mem s2 f (heq ▸ hf)
      have h2 := nodup_countName_le_one s2 hnodup2 "output_type_id"
      omega

/-! ## Claim C2 -/

/-- C2: in the schema of every table produced by `read_file` — for CSV via
the `column_types` override, for Parquet via the `get_field_index`/`set`
loop — every column named `location` or `output_type_id` that is present
in the source schema is string-typed, whatever its native type was, and
the set of column names is unchanged. -/
theorem C2_force_string_columns (inferred native : ArrowSchema)
    (hnodup : (native.map Prod.fst).Nodup) :
    ((csvReadSchema inferred).map Prod.fst = inferred.map Prod.fst ∧
      ∀ f ∈ csvReadSchema inferred, forcedString f.1 = true → f.2 = PType.string) ∧
    ((parquetReadSchema native).map Prod.fst = native.map Prod.fst ∧
      ∀ f ∈ parquetReadSchema native, forcedString f.1 = true → f.2 = PType.string) := by
  refine ⟨⟨?_, ?_⟩, ?_, ?_⟩
  · unfold csvReadSchema
    rw [List.map_map]
    apply List.map_congr_left
    intro f _
    by_cases hf : forcedString f.1 = true <;> simp [hf]
  · intro f hf hforced
    unfold csvReadSchema at hf
    obtain ⟨g, hg, hfg⟩ := List.mem_map.mp hf
    by_cases hgf : forcedString g.1 = true
    · rw [if_pos hgf] at hfg
      rw [← hfg]
    · rw [if_neg hgf] at hfg
      subst hfg
      exact absurd hforced hgf
  · unfold parquetReadSchema
    rw [forceFieldString_names, forceFieldString_names]
  · intro f hf hforced
    apply parquet_forced_string native hnodup f hf
    unfold forcedString at hforced
    simpa using hforced

theorem C2_force_string_columns_witness :
    (((([("location", PType.float64), ("value", PType.float64),
         ("output_type_id", PType.float64)]) : ArrowSchema).map Prod.fst).Nodup) ∧
    (((csvReadSchema [("location", PType.int64), ("output_type_id", PType.float64),
        ("value", PType.float64)]).map Prod.fst =
      ([("location", PType.int64), ("output_type_id", PType.float64),
        ("value", PType.float64)] : ArrowSchema).map Prod.fst ∧
      ∀ f ∈ csvReadSchema [("location", PType.int64), ("output_type_id", PType.float64),
        ("value", PType.float64)], forcedString f.1 = true → f.2 = PType.string) ∧
     ((parquetReadSchema [("location", PType.float64), ("value", PType.float64),
        ("output_type_id", PType.float64)]).map Prod.fst =
      ([("location", PType.float64), ("value", PType.float64),
        ("output_type_id", PType.float64)] : ArrowSchema).map Prod.fst ∧
      ∀ f ∈ parquetReadSchema [("location", PType.float64), ("value", PType.float64),
        ("output_type_id", PType.float64)],
        forcedString f.1 = true → f.2 = PType.string)) :=
  ⟨by decide,
   C2_force_string_columns
     [("location", PType.int64), ("output_type_id", PType.float64),
      ("value", PType.float64)]
     [("location", PType.float64), ("value", PType.float64),
      ("output_type_id", PType.float64)]
     (by decide)⟩

/-! ## Claim C3 -/

/-- C3: for CSV input, every cell whose raw text is one of the tokens
`na`, `NA`, empty, single space, `null`, `Null`, `NaN`, `nan` is read as
null regardless of the column's logical type, and a cell of a string-typed
column with any other raw text is read as exactly that literal text. -/
theorem C3_csv_null_tokens (decode : PType → String → Except Unit CellVal)
    (t : PType) (raw : String) :
    (raw ∈ null_values → readCsvCell decode t raw = .ok .null) ∧
    (raw ∉ null_values → readCsvCell decode .string raw = .ok (.str raw)) := by
  constructor
  · intro h
    simp [readCsvCell, h]
  · intro h
    simp [readCsvCell, h]

theorem C3_csv_null_tokens_witness :
    readCsvCell noDecode .float64 "NA" = .ok .null ∧
    readCsvCell noDecode .string "0.0" = .ok (.str "0.0") :=
  ⟨(C3_csv_null_tokens noDecode .float64 "NA").1 (by decide),
   (C3_csv_null_tokens noDecode .string "0.0").2 (by decide)⟩

/-! ## Claim C7 -/

/-- C7 is violated by the code: `urllib.parse.quote` also encodes `%`, so
re-sanitizing an already-sanitized path re-encodes its escapes.  For
`hub/my file.csv` the first pass yields `hub/my%20file.csv` and the second
pass corrupts it to `hub/my%2520file.csv`. -/
theorem C7_sanitize_uri_not_idempotent :
    sanitize_uri (("hub/my file.csv").toList) = ("hub/my%20file.csv").toList ∧
    sanitize_uri (sanitize_uri (("hub/my file.csv").toList)) =
      ("hub/my%2520file.csv").toList ∧
    sanitize_uri (sanitize_uri (("hub/my file.csv").toList)) ≠
      sanitize_uri (("hub/my file.csv").toList) := by
  exact ⟨by decide, by decide, by decide⟩

/-! ## Lemmas about posix normalization -/

lemma splitSeg_ne_nil (s : PyStr) : splitSeg s ≠ [] := by
  induction s with
  | nil => simp [splitSeg]
  | cons c cs ih =>
    simp only [splitSeg]
    by_cases hc : c = '/'
    · simp [hc]
    · rw [if_neg hc]
      cases h : splitSeg cs with
      | nil => simp
      | cons p ps => simp

lemma splitSeg_no_slash (s : PyStr) : ∀ seg ∈ splitSeg s, ¬ '/' ∈ seg := by
  induction s with
  | nil =>
    intro seg hseg
    simp only [splitSeg, List.mem_singleton] at hseg
    simp [hseg]
  | cons c cs ih =>
    intro seg hseg
    simp only [splitSeg] at hseg
    by_cases hc : c = '/'
    · rw [if_pos hc] at hseg
      rcases List.mem_cons.mp hseg with rfl | hmem
      · simp
      · exact ih seg hmem
    · rw [if_neg hc] at hseg
      cases h : splitSeg cs with
      | nil =>
        rw [h] at hseg
        rw [List.mem_singleton.mp hseg]
        intro hmem
        exact hc (List.mem_singleton.mp hmem).symm
      | cons p ps =>
        rw [h] at hseg
        rcases List.mem_cons.mp hseg with rfl | hmem
        · intro hmem2
          rcases List.mem_cons.mp hmem2 with heq | hmem3
          · exact hc heq.symm
          · exact ih p (h ▸ List.mem_cons_self p ps) hmem3
        · exact ih seg (h ▸ List.mem_cons_of_mem p hmem)

lemma splitSeg_of_no_slash (n : PyStr) (h : ¬ '/' ∈ n) : splitSeg n = [n] := by
  induction n with
  | nil => rfl
  | cons c cs ih =>
    have hc : c ≠ '/' := fun hh => h (hh ▸ List.mem_cons_self c cs)
    simp only [splitSeg]
    rw [if_neg hc, ih (fun hh => h (List.mem_cons_of_mem c hh))]

lemma splitSeg_append_slash (p n : PyStr) (hn : ¬ '/' ∈ n) :
    splitSeg (p ++ '/' :: n) = splitSeg p ++ [n] := by
  induction p with
  | nil =>
    simp only [List.nil_append]
    simp [splitSeg, splitSeg_of_no_slash n hn]
  | cons c cs ih =>
    have hax : cs.append ('/' :: n) = cs ++ '/' :: n := rfl
    by_cases hc : c = '/'
    · subst hc
      simp only [List.cons_append, splitSeg, if_true]
      rw [hax, ih]
    · simp only [List.cons_append, splitSeg]
      rw [if_neg hc, if_neg hc, hax, ih]
      cases h : splitSeg cs with
      | nil => exact absurd h (splitSeg_ne_nil cs)
      | cons q qs => simp [h]

lemma joinSeg_append_singleton (qs : List PyStr) (n : PyStr) (h : qs ≠ []) :
    joinSeg (qs ++ [n]) = joinSeg qs ++ '/' :: n := by
  induction qs with
  | nil => exact absurd rfl h
  | cons q qs2 ih =>
    cases qs2 with
    | nil => simp [joinSeg]
    | cons r rs =>
      have ihh := ih (by simp)
      have hax : rs.append [n] = rs ++ [n] := rfl
      simp only [List.cons_append, joinSeg] at ihh ⊢
      rw [hax, ihh]
      simp

lemma goodSeg_eq_true (s : PyStr) (h1 : s ≠ []) (h2 : s ≠ ['.']) :
    goodSeg s = true := by
  unfold goodSeg
  rw [if_neg h1, if_neg h2]

lemma posixRoot_nil_of_head (c : Char) (r : PyStr) (hc : c ≠ '/') :
    posixRoot (c :: r) = [] := by
  simp only [posixRoot]
  rw [if_neg hc]

lemma posixRoot_one (c : Char) (r : PyStr) (hc : c ≠ '/') :
    posixRoot ('/' :: c :: r) = ['/'] := by
  simp only [posixRoot, if_true]
  rw [if_neg hc]

lemma posixRoot_two (c : Char) (r : PyStr) (hc : c ≠ '/') :
    posixRoot ('/' :: '/' :: c :: r) = ['/', '/'] := by
  simp only [posixRoot, if_true]
  rw [if_neg hc]

lemma posixRoot_cases (s : PyStr) :
    posixRoot s = [] ∨ posixRoot s = ['/'] ∨ posixRoot s = ['/', '/'] := by
  cases s with
  | nil => exact Or.inl rfl
  | cons c rest =>
    by_cases hc : c = '/'
    · subst hc
      cases rest with
      | nil => exact Or.inr (Or.inl (by simp [posixRoot]))
      | cons c2 rest2 =>
        by_cases hc2 : c2 = '/'
        · subst hc2
          cases rest2 with
          | nil => exact Or.inr (Or.inr (by simp [posixRoot]))
          | cons c3 t =>
            by_cases hc3 : c3 = '/'
            · subst hc3
              exact Or.inr (Or.inl (by simp [posixRoot]))
            · exact Or.inr (Or.inr (posixRoot_two c3 t hc3))
        · exact Or.inr (Or.inl (posixRoot_one c2 rest2 hc2))
    · exact Or.inl (posixRoot_nil_of_head c rest hc)

lemma filter_singleton_good (x : PyStr) (hx : goodSeg x = true) :
    List.filter goodSeg [x] = [x] := by
  simp [List.filter, hx]

lemma norm_decomp (p : PyStr) (hp : posixNorm p = p) (h1 : p ≠ ['.']) :
    p = posixRoot p ++ joinSeg ((splitSeg p).filter goodSeg) := by
  simp only [posixNorm] at hp
  by_cases hcond : posixRoot p = [] ∧ (splitSeg p).filter goodSeg = []
  · rw [if_pos hcond] at hp
    exact absurd hp.symm h1
  · rw [if_neg hcond] at hp
    exact hp.symm

lemma segs_ne_nil_of_norm (p : PyStr) (hp : posixNorm p = p) (h0 : p ≠ [])
    (h1 : p ≠ ['.']) (h2 : p ≠ ['/']) (h3 : p ≠ ['/', '/']) :
    (splitSeg p).filter goodSeg ≠ [] := by
  intro hnil
  have hd := norm_decomp p hp h1
  rw [hnil] at hd
  simp only [joinSeg, List.append_nil] at hd
  rcases posixRoot_cases p with h | h | h
  · exact h0 (by rw [hd, h])
  · exact h2 (by rw [hd, h])
  · exact h3 (by rw [hd, h])

lemma joinSeg_cons_form (q : PyStr) (qs : List PyStr) :
    ∃ t, joinSeg (q :: qs) = q ++ t := by
  cases qs with
  | nil => exact ⟨[], by simp [joinSeg]⟩
  | cons r rs => exact ⟨'/' :: joinSeg (r :: rs), by simp [joinSeg]⟩

lemma posixRoot_append_slash (p n : PyStr) (hp : posixNorm p = p)
    (h0 : p ≠ []) (h1 : p ≠ ['.']) (h2 : p ≠ ['/']) (h3 : p ≠ ['/', '/']) :
    posixRoot (p ++ '/' :: n) = posixRoot p := by
  have hd := norm_decomp p hp h1
  obtain ⟨q, qs, hqqs⟩ : ∃ q qs, (splitSeg p).filter goodSeg = q :: qs := by
    cases h : (splitSeg p).filter goodSeg with
    | nil => exact absurd h (segs_ne_nil_of_norm p hp h0 h1 h2 h3)
    | cons q qs => exact ⟨q, qs, rfl⟩
  have hqmem : q ∈ splitSeg p :=
    List.mem_of_mem_filter (hqqs ▸ List.mem_cons_self q qs)
  have hqgood : goodSeg q = true :=
    List.of_mem_filter (hqqs ▸ List.mem_cons_self q qs)
  have hqne : q ≠ [] := by
    intro hq
    rw [hq] at hqgood
    simp [goodSeg] at hqgood
  obtain ⟨d, q2, rfl⟩ : ∃ d q2, q = d :: q2 := by
    cases q with
    | nil => exact absurd rfl hqne
    | cons d q2 => exact ⟨d, q2, rfl⟩
  have hdne : d ≠ '/' :=
    fun hh => splitSeg_no_slash p _ hqmem (hh ▸ List.mem_cons_self d q2)
  obtain ⟨t, hjoin⟩ := joinSeg_cons_form (d :: q2) qs
  rw [hqqs, hjoin] at hd
  rcases posixRoot_cases p with h | h | h
  · rw [h] at hd
    simp only [List.nil_append, List.cons_append] at hd
    rw [h, hd, List.cons_append]
    exact posixRoot_nil_of_head d _ hdne
  · rw [h] at hd
    simp only [List.cons_append, List.nil_append] at hd
    rw [h, hd, List.cons_append, List.cons_append]
    exact posixRoot_one d _ hdne
  · rw [h] at hd
    simp only [List.cons_append, List.nil_append] at hd
    rw [h, hd, List.cons_append, List.cons_append, List.cons_append]
    exact posixRoot_two d _ hdne

/-! ## Claim C4 -/

/-- C4: in this embedding both pipelines' output locations are pure
functions of `(output_path, file_name)`, so recomputation is trivially
stable; the substantive half of the claim is that the add/update pipeline
(`write_parquet`, a plain f-string concatenation) and the delete pipeline
(`delete_model_output`, a `pathlib` join) compute the identical canonical
path `{output_path}/{file_name}.parquet`.  This holds for every
already-normalized, non-degenerate `output_path` (as produced by
`fs.FileSystem.from_uri`) and every slash-free `file_name`. -/
theorem C4_output_location_agreement (output_path file_name : PyStr)
    (hp : posixNorm output_path = output_path)
    (h0 : output_path ≠ []) (h1 : output_path ≠ ['.'])
    (h2 : output_path ≠ ['/']) (h3 : output_path ≠ ['/', '/'])
    (hfn : ¬ '/' ∈ file_name) :
    delete_output_path output_path file_name =
      write_parquet_path output_path file_name := by
  have hnslash : ¬ '/' ∈ file_name ++ (".parquet").toList := by
    intro hmem
    rcases List.mem_append.mp hmem with hh | hh
    · exact hfn hh
    · exact absurd hh (by decide)
  have hne : file_name ++ (".parquet").toList ≠ [] := by
    simp
  have hndot : file_name ++ (".parquet").toList ≠ ['.'] := by
    intro hh
    have hlen := congrArg List.length hh
    simp [List.length_append] at hlen
  have hsegs := segs_ne_nil_of_norm output_path hp h0 h1 h2 h3
  have hd := norm_decomp output_path hp h1
  unfold delete_output_path pathlibJoin write_parquet_path
  rw [if_neg h0]
  simp only [posixNorm]
  rw [splitSeg_append_slash output_path _ hnslash, List.filter_append]
  rw [filter_singleton_good _ (goodSeg_eq_true _ hne hndot)]
  rw [if_neg (by
    intro hcond
    exact absurd hcond.2 (by
      intro happ
      exact hsegs (List.append_eq_nil.mp happ).1))]
  rw [posixRoot_append_slash output_path _ hp h0 h1 h2 h3,
    joinSeg_append_singleton _ _ hsegs]
  conv_rhs => rw [hd]
  simp [List.append_assoc]

theorem C4_output_location_agreement_witness :
    posixNorm (("bucket123/prefix1/prefix2").toList) =
      ("bucket123/prefix1/prefix2").toList ∧
    delete_output_path (("bucket123/prefix1/prefix2").toList)
        (("2420-01-01-team_one-model").toList) =
      write_parquet_path (("bucket123/prefix1/prefix2").toList)
        (("2420-01-01-team_one-model").toList) :=
  ⟨by decide,
   C4_output_location_agreement (("bucket123/prefix1/prefix2").toList)
     (("2420-01-01-team_one-model").toList)
     (by decide) (by decide) (by decide) (by decide) (by decide) (by decide)⟩

/-! ## Lemmas about `add_columns` -/

lemma lookupCol_eq_none (t : PTable) (n : String) (h : ¬ n ∈ t.map Prod.fst) :
    lookupCol t n = none := by
  unfold lookupCol
  rw [List.find?_eq_none.mpr]
  · rfl
  · intro f hf hp
    simp only [decide_eq_true_eq] at hp
    exact h (hp ▸ List.mem_map_of_mem Prod.fst hf)

lemma find?_name_of_nodup (t : PTable) (f : String × Column) (hf : f ∈ t)
    (hnodup : (t.map Prod.fst).Nodup) :
    t.find? (fun g => g.1 = f.1) = some f := by
  induction t with
  | nil => simp at hf
  | cons g gs ih =>
    rw [List.map_cons] at hnodup
    obtain ⟨hval, hrest⟩ := List.nodup_cons.mp hnodup
    by_cases hg : g.1 = f.1
    · have hfg : f = g := by
        rcases List.mem_cons.mp hf with rfl | hmem
        · rfl
        · exact absurd (hg ▸ List.mem_map_of_mem Prod.fst hmem) hval
      subst hfg
      exact List.find?_cons_of_pos _ (by simp)
    · have hmem : f ∈ gs := by
        rcases List.mem_cons.mp hf with rfl | hmem
        · exact absurd rfl hg
        · exact hmem
      rw [List.find?_cons_of_neg _ (by simp [hg])]
      exact ih hmem hrest

lemma find?_append_of_some (l₁ l₂ : PTable) (p : String × Column → Bool)
    (a : String × Column) (h : l₁.find? p = some a) :
    (l₁ ++ l₂).find? p = some a := by
  induction l₁ with
  | nil => simp at h
  | cons g gs ih =>
    by_cases hg : p g = true
    · rw [List.find?_cons_of_pos _ hg] at h
      rw [List.cons_append, List.find?_cons_of_pos _ hg]
      exact h
    · rw [List.find?_cons_of_neg _ hg] at h
      rw [List.cons_append, List.find?_cons_of_neg _ hg]
      exact ih h

lemma map_keep_of_none (new : PTable) :
    ∀ l : PTable, (∀ f ∈ l, lookupCol new f.1 = none) →
      l.map (fun f =>
        match lookupCol new f.1 with
        | some v => (f.1, v)
        | none => f) = l := by
  intro l
  induction l with
  | nil => intro _; rfl
  | cons g gs ih =>
    intro hl
    rw [List.map_cons, hl g (by simp), ih (fun f hf => hl f (by simp [hf]))]

lemma dictMerge_of_disjoint (old new : PTable)
    (hon : ∀ f ∈ old, lookupCol new f.1 = none)
    (hno : ∀ f ∈ new, lookupCol old f.1 = none) :
    dictMerge old new = old ++ new := by
  unfold dictMerge
  have h2 : new.filter (fun f => lookupCol old f.1 = none) = new :=
    List.filter_eq_self.mpr (fun f hf => by simp [hno f hf])
  rw [map_keep_of_none new old hon, h2]

/-! ## Claim C6 -/

/-- C6 as stated is false for tables that already contain a column named
`round_id` or `model_id`: the Python dict merge `existing | new`
*overwrites* such a column instead of appending a second one, so the
column count does not grow by two and the pre-existing column's values
change. -/
theorem C6_add_columns_counterexample :
    ¬ ((add_columns "2024-01-01" "m" [("round_id", [CellVal.str "x"])]).length =
        ([("round_id", [CellVal.str "x"])] : PTable).length + 2 ∧
      lookupCol (add_columns "2024-01-01" "m" [("round_id", [CellVal.str "x"])])
          "round_id" = some [CellVal.str "x"]) := by
  decide

/-- C6 (amended): for every input table with distinct column names, none of
which is `round_id` or `model_id`, and whose columns all have `num_rows`
values, `add_columns` keeps the row count, grows the column count by
exactly two, and leaves every pre-existing column unchanged under
position-independent (lookup-by-name) comparison. -/
theorem C6_add_columns_frame (rid mid : String) (t : PTable)
    (hnodup : (t.map Prod.fst).Nodup)
    (hrid : ¬ "round_id" ∈ t.map Prod.fst)
    (hmid : ¬ "model_id" ∈ t.map Prod.fst)
    (_hlen : ∀ f ∈ t, f.2.length = numRows t) :
    numRows (add_columns rid mid t) = numRows t ∧
    (add_columns rid mid t).length = t.length + 2 ∧
    ∀ f ∈ t, lookupCol (add_columns rid mid t) f.1 = some f.2 := by
  have hsplit : add_columns rid mid t =
      t ++ [("round_id", List.replicate (numRows t) (.str rid)),
            ("model_id", List.replicate (numRows t) (.str mid))] := by
    unfold add_columns
    apply dictMerge_of_disjoint
    · intro f hf
      apply lookupCol_eq_none
      intro hmem
      simp only [List.map_cons, List.map_nil, List.mem_cons,
        List.not_mem_nil, or_false] at hmem
      rcases hmem with h | h
      · exact hrid (h ▸ List.mem_map_of_mem Prod.fst hf)
      · exact hmid (h ▸ List.mem_map_of_mem Prod.fst hf)
    · intro f hf
      apply lookupCol_eq_none
      simp only [List.mem_cons, List.not_mem_nil, or_false] at hf
      rcases hf with rfl | rfl
      · exact hrid
      · exact hmid
  refine ⟨?_, ?_, ?_⟩
  · rw [hsplit]
    cases t with
    | nil => simp [numRows]
    | cons g gs => simp [numRows]
  · rw [hsplit]
    simp
  · intro f hf
    rw [hsplit]
    unfold lookupCol
    rw [find?_append_of_some _ _ _ f (find?_name_of_nodup t f hf hnodup)]
    rfl

theorem C6_add_columns_frame_witness :
    ((([("value", [CellVal.int 1, CellVal.int 2]),
        ("location", [CellVal.str "02", CellVal.null])] : PTable).map
          Prod.fst).Nodup) ∧
    numRows (add_columns "2024-01-01" "team-model"
        [("value", [CellVal.int 1, CellVal.int 2]),
         ("location", [CellVal.str "02", CellVal.null])]) =
      numRows [("value", [CellVal.int 1, CellVal.int 2]),
               ("location", [CellVal.str "02", CellVal.null])] ∧
    (add_columns "2024-01-01" "team-model"
        [("value", [CellVal.int 1, CellVal.int 2]),
         ("location", [CellVal.str "02", CellVal.null])]).length =
      ([("value", [CellVal.int 1, CellVal.int 2]),
        ("location", [CellVal.str "02", CellVal.null])] : PTable).length + 2 ∧
    ∀ f ∈ ([("value", [CellVal.int 1, CellVal.int 2]),
            ("location", [CellVal.str "02", CellVal.null])] : PTable),
      lookupCol (add_columns "2024-01-01" "team-model"
          [("value", [CellVal.int 1, CellVal.int 2]),
           ("location", [CellVal.str "02", CellVal.null])]) f.1 = some f.2 :=
  ⟨by decide,
   (C6_add_columns_frame "2024-01-01" "team-model" _
      (by decide) (by decide) (by decide) (by decide)).1,
   (C6_add_columns_frame "2024-01-01" "team-model" _
      (by decide) (by decide) (by decide) (by decide)).2.1,
   (C6_add_columns_frame "2024-01-01" "team-model" _
      (by decide) (by decide) (by decide) (by decide)).2.2⟩

/-! ## Claim C8 -/

/-- C8: deleting a canonical output file that does not exist yields the
missing-delete `UserWarning` (a constructor distinct from the fatal
errors), the store is untouched, the lambda caller sees no exception
(the warning is swallowed), and repeating the deletion is safe and gives
the same outcome. -/
theorem C8_delete_missing_recoverable (store : List PyStr) (out fn : PyStr)
    (h : delete_output_path out fn ∉ store) :
    delete_model_output store out fn =
      (store, .error (.userWarning (delete_output_path out fn) notFoundMsg)) ∧
    lambda_delete store out fn = (store, .skippedWarning) ∧
    lambda_delete (lambda_delete store out fn).1 out fn =
      lambda_delete store out fn := by
  have h1 : delete_file store (delete_output_path out fn) = none := by
    simp [delete_file, h]
  have h2 : delete_model_output store out fn =
      (store, .error (.userWarning (delete_output_path out fn) notFoundMsg)) := by
    simp [delete_model_output, h1]
  have h3 : lambda_delete store out fn = (store, .skippedWarning) := by
    simp [lambda_delete, h2]
  exact ⟨h2, h3, by rw [h3]; exact h3⟩

theorem C8_delete_missing_recoverable_witness :
    delete_model_output [] (("bucket/prefix").toList) (("2420-01-01-team").toList) =
      ([], .error (.userWarning
        (delete_output_path (("bucket/prefix").toList) (("2420-01-01-team").toList))
        notFoundMsg)) ∧
    lambda_delete [] (("bucket/prefix").toList) (("2420-01-01-team").toList) =
      ([], .skippedWarning) ∧
    lambda_delete
        (lambda_delete [] (("bucket/prefix").toList) (("2420-01-01-team").toList)).1
        (("bucket/prefix").toList) (("2420-01-01-team").toList) =
      lambda_delete [] (("bucket/prefix").toList) (("2420-01-01-team").toList) :=
  C8_delete_missing_recoverable [] (("bucket/prefix").toList)
    (("2420-01-01-team").toList) (by decide)

/-! ## Claim C9 -/

/-- C9: for an input path whose (sanitized) extension is not `.csv`,
`.parquet` or `.pqt`, or that has no extension at all, constructing the
handler signals a `UserWarning` carrying the offending path — a
constructor of its own, distinct from the `ValueError` format error. -/
theorem C9_unsupported_input_warning (ip op : PyStr)
    (h : psuffix ip = [] ∨ ¬ psuffix (sanitize_uri ip) ∈ supported_file_types) :
    ∃ m, mkHandler ip op = .error (.userWarning ip m) := by
  by_cases h2 : psuffix ip = []
  · exact ⟨noExtMsg, by simp [mkHandler, h2]⟩
  · have h3 : ¬ psuffix (sanitize_uri ip) ∈ supported_file_types := by
      rcases h with h | h
      · exact absurd h h2
      · exact h
    exact ⟨unsupportedMsg (psuffix (sanitize_uri ip)), by simp [mkHandler, h2, h3]⟩

theorem C9_unsupported_input_warning_witness :
    (psuffix (("raw/photo.jpg").toList) = [] ∨
      ¬ psuffix (sanitize_uri (("raw/photo.jpg").toList)) ∈ supported_file_types) ∧
    ∃ m, mkHandler (("raw/photo.jpg").toList) (("out").toList) =
      .error (.userWarning (("raw/photo.jpg").toList) m) :=
  ⟨Or.inr (by decide),
   C9_unsupported_input_warning (("raw/photo.jpg").toList) (("out").toList)
     (Or.inr (by decide))⟩

/-! ## Claim C10 -/

/-- C10: the extension checks run strictly before filename parsing: a path
with a missing or unsupported extension is reported as the unsupported
input `UserWarning` — never as the `ValueError` format error — even when
its file name would also fail `parse_file`. -/
theorem C10_extension_before_parse (ip op : PyStr) (e : PyErr)
    (hext : psuffix ip = [] ∨ ¬ psuffix (sanitize_uri ip) ∈ supported_file_types)
    (_hname : parse_file (pstem (sanitize_uri ip)) = .error e) :
    (∃ m, mkHandler ip op = .error (.userWarning ip m)) ∧
    ∀ m, mkHandler ip op ≠ .error (.valueError m) := by
  have hwarn : ∃ m, mkHandler ip op = .error (.userWarning ip m) := by
    by_cases h2 : psuffix ip = []
    · exact ⟨noExtMsg, by simp [mkHandler, h2]⟩
    · have h3 : ¬ psuffix (sanitize_uri ip) ∈ supported_file_types := by
        rcases hext with h | h
        · exact absurd h h2
        · exact h
      exact ⟨unsupportedMsg (psuffix (sanitize_uri ip)), by simp [mkHandler, h2, h3]⟩
  refine ⟨hwarn, ?_⟩
  obtain ⟨m, hm⟩ := hwarn
  intro m2 hcontra
  rw [hm] at hcontra
  exact PyErr.noConfusion (Except.error.inj hcontra)

theorem C10_extension_before_parse_witness :
    (psuffix (("raw/badname.txt").toList) = [] ∨
      ¬ psuffix (sanitize_uri (("raw/badname.txt").toList)) ∈ supported_file_types) ∧
    parse_file (pstem (sanitize_uri (("raw/badname.txt").toList))) =
      .error (.valueError (roundErrMsg (("badname").toList))) ∧
    (∃ m, mkHandler (("raw/badname.txt").toList) (("out").toList) =
      .error (.userWarning (("raw/badname.txt").toList) m)) ∧
    ∀ m, mkHandler (("raw/badname.txt").toList) (("out").toList) ≠
      .error (.valueError m) :=
  ⟨Or.inr (by decide), by decide,
   (C10_extension_before_parse (("raw/badname.txt").toList) (("out").toList)
      (.valueError (roundErrMsg (("badname").toList)))
      (Or.inr (by decide)) (by decide)).1,
   (C10_extension_before_parse (("raw/badname.txt").toList) (("out").toList)
      (.valueError (roundErrMsg (("badname").toList)))
      (Or.inr (by decide)) (by decide)).2⟩

end HubTransform
